import Mathlib

set_option maxRecDepth 100000
set_option maxHeartbeats 4000000

/-
Verification development for the 5-qubit / 9-qubit (Shor) quantum
error-correcting-code repository.

The sources build qiskit circuits.  We embed them shallowly: a quantum state
on n qubits is a complete binary tree of depth n whose leaves are the
amplitudes in the computational basis, with all-zero subtrees pruned to a
`zero` constructor.  The root branches on the HIGHEST qubit index (qiskit
convention: qubit i is bit i of the basis-state index), so qubit q of an
n-qubit state lives at tree level n-1-q.  Amplitudes are Gaussian integers:
the states are unnormalized, and every Hadamard drops its 1/sqrt 2 factor, so
a circuit with 2k Hadamards computes 2^k times the true state; the theorems
carry that power of two as an explicit scale factor.
-/

/-- Gaussian-integer amplitude: real and imaginary parts. -/
abbrev GInt := Int × Int

def gadd (a b : GInt) : GInt := (a.1 + b.1, a.2 + b.2)

def gmul (a b : GInt) : GInt := (a.1 * b.1 - a.2 * b.2, a.1 * b.2 + a.2 * b.1)

def gconj (a : GInt) : GInt := (a.1, -a.2)

/-- Sparse state tree.  `zero` is an all-zero subtree, `leaf` an amplitude,
`node l r` branches on the current qubit (l: bit 0, r: bit 1). -/
inductive QT
  | zero
  | leaf (re im : Int)
  | node (l r : QT)
deriving DecidableEq

/-- Smart leaf constructor keeping trees canonical: a zero amplitude is
represented by `zero`, never by `leaf 0 0`. -/
def mkLeaf (a : GInt) : QT :=
  if a.1 = 0 ∧ a.2 = 0 then QT.zero else QT.leaf a.1 a.2

/-- Smart node constructor keeping trees canonical: a node of two zero
subtrees is `zero`. -/
def mkNode : QT → QT → QT
  | QT.zero, QT.zero => QT.zero
  | l, r => QT.node l r

/-- Pointwise negation. -/
def qneg : QT → QT
  | QT.zero => QT.zero
  | QT.leaf a b => QT.leaf (-a) (-b)
  | QT.node l r => QT.node (qneg l) (qneg r)

/-- Pointwise multiplication by a scalar. -/
def qscale (c : GInt) : QT → QT
  | QT.zero => QT.zero
  | QT.leaf a b => mkLeaf (gmul c (a, b))
  | QT.node l r => mkNode (qscale c l) (qscale c r)

/-- Pointwise sum of two states. -/
def qadd : QT → QT → QT
  | QT.zero, t => t
  | t, QT.zero => t
  | QT.leaf a b, QT.leaf c d => mkLeaf (gadd (a, b) (c, d))
  | QT.node l r, QT.node l2 r2 => mkNode (qadd l l2) (qadd r r2)
  | t, _ => t

def qsub (a b : QT) : QT := qadd a (qneg b)

/-- Children of a tree, reading `zero` as a node of two zeros. -/
def tsplit : QT → QT × QT
  | QT.node l r => (l, r)
  | _ => (QT.zero, QT.zero)

/-- Apply f to every subtree u levels below the root. -/
def onLevel : Nat → (QT → QT) → QT → QT
  | 0, f, t => f t
  | _ + 1, _, QT.zero => QT.zero
  | u + 1, f, t =>
    let p := tsplit t
    mkNode (onLevel u f p.1) (onLevel u f p.2)

/-- X on the qubit this node branches on: swap the two halves. -/
def gxNode (t : QT) : QT :=
  let p := tsplit t
  mkNode p.2 p.1

/-- Z on the qubit this node branches on: negate the bit-1 half. -/
def gzNode (t : QT) : QT :=
  let p := tsplit t
  mkNode p.1 (qneg p.2)

/-- Y on the qubit this node branches on: the bit-0 amplitude a goes to i a
at bit 1, the bit-1 amplitude b goes to -i b at bit 0. -/
def gyNode (t : QT) : QT :=
  let p := tsplit t
  mkNode (qscale (0, -1) p.2) (qscale (0, 1) p.1)

/-- Unnormalized Hadamard on the qubit this node branches on. -/
def ghNode (t : QT) : QT :=
  let p := tsplit t
  mkNode (qadd p.1 p.2) (qsub p.1 p.2)

/-- Apply f to the control-1 half of every subtree u levels below. -/
def controlledAt (u : Nat) (f : QT → QT) : QT → QT :=
  onLevel u (fun t =>
    let p := tsplit t
    mkNode p.1 (f p.2))

/-- CX whose control bit lies u levels below the target node: the two target
halves a (target bit 0) and b (target bit 1) exchange their control-1 parts. -/
def cxSwap : Nat → QT → QT → QT × QT
  | _, QT.zero, QT.zero => (QT.zero, QT.zero)
  | 0, a, b =>
    let pa := tsplit a
    let pb := tsplit b
    (mkNode pa.1 pb.2, mkNode pb.1 pa.2)
  | u + 1, a, b =>
    let pa := tsplit a
    let pb := tsplit b
    let q0 := cxSwap u pa.1 pb.1
    let q1 := cxSwap u pa.2 pb.2
    (mkNode q0.1 q1.1, mkNode q0.2 q1.2)

/-- The gates appearing in the source circuits, on qubits c (control) and
t (target). -/
inductive Gate
  | x (t : Nat)
  | y (t : Nat)
  | z (t : Nat)
  | h (t : Nat)
  | cx (c t : Nat)
  | cz (c t : Nat)
deriving DecidableEq

/-- Action of one gate on an n-qubit state tree.  Qubit q lives at tree level
n-1-q.  For cx with the control on a higher qubit than the target, condition
then act; with the control on a lower qubit, exchange amplitudes via cxSwap.
cz is diagonal and symmetric in its two qubits. -/
def applyGateN (n : Nat) : Gate → QT → QT
  | Gate.x t, v => onLevel (n - 1 - t) gxNode v
  | Gate.y t, v => onLevel (n - 1 - t) gyNode v
  | Gate.z t, v => onLevel (n - 1 - t) gzNode v
  | Gate.h t, v => onLevel (n - 1 - t) ghNode v
  | Gate.cx c t, v =>
    if t < c then controlledAt (n - 1 - c) (onLevel (c - t - 1) gxNode) v
    else
      onLevel (n - 1 - t) (fun w =>
        let p := tsplit w
        let q := cxSwap (t - c - 1) p.1 p.2
        mkNode q.1 q.2) v
  | Gate.cz c t, v =>
    controlledAt (n - 1 - max c t) (onLevel (max c t - min c t - 1) gzNode) v

def runGatesN (n : Nat) (gs : List Gate) (v : QT) : QT :=
  gs.foldl (fun v g => applyGateN n g v) v

/-- Qiskit circuit inversion reverses the gate list and inverts each gate;
all gates used in these circuits (x, y, z, h, cx, cz) are self-inverse. -/
def invGates (gs : List Gate) : List Gate := gs.reverse

/-- Build the state a * |k> on d qubits. -/
def singletonT : Nat → Nat → GInt → QT
  | 0, _, a => mkLeaf a
  | d + 1, k, a =>
    if k.testBit d then mkNode QT.zero (singletonT d k a)
    else mkNode (singletonT d k a) QT.zero

/-- State with the given list of (basis index, amplitude) components. -/
def ofTerms (d : Nat) (ts : List (Nat × GInt)) : QT :=
  ts.foldl (fun t ka => qadd t (singletonT d ka.1 ka.2)) QT.zero

/-- Amplitude of basis state k in a d-qubit state tree. -/
def qamp : Nat → Nat → QT → GInt
  | 0, _, QT.leaf a b => (a, b)
  | 0, _, _ => (0, 0)
  | _ + 1, _, QT.zero => (0, 0)
  | d + 1, k, t => qamp d k (if k.testBit d then (tsplit t).2 else (tsplit t).1)

/-- Inner product of two state trees of equal depth (conjugate-linear in the
first argument). -/
def qdot : QT → QT → GInt
  | QT.leaf a b, QT.leaf c d => gmul (gconj (a, b)) (c, d)
  | QT.node l r, QT.node l2 r2 => gadd (qdot l l2) (qdot r r2)
  | _, _ => (0, 0)

/-- Extend a code-qubit state to code plus d check ancillas, the ancilla
register (the top d tree levels) in computational state s. -/
def syndromePath : Nat → Nat → QT → QT
  | 0, _, t => t
  | d + 1, s, t =>
    if s.testBit d then mkNode QT.zero (syndromePath d s t)
    else mkNode (syndromePath d s t) QT.zero

/-- All values s of the d-bit check-ancilla register (the top d tree levels)
holding any amplitude, with the code-qubit state attached to each: the
possible outcomes of measuring the check ancillas. -/
def ancillaBranches : Nat → QT → List (Nat × QT)
  | _, QT.zero => []
  | 0, t => [(0, t)]
  | d + 1, t =>
    let p := tsplit t
    ancillaBranches d p.1 ++ (ancillaBranches d p.2).map (fun b => (b.1 + 2 ^ d, b.2))

/-- Measured bit strings and the source's logical-0 component strings, as
lists of binary digits; the python sources hold them as character strings
such as '00101', with the most significant bit first. -/
abbrev BitStr := List Nat

/-- Every bit string of length n, for enumeration in proofs. -/
def all_bit_strings : Nat → List BitStr
  | 0 => [[]]
  | n + 1 => (all_bit_strings n).flatMap (fun s => [0 :: s, 1 :: s])

/-- One of the three Pauli error kinds injected by the test harness. -/
inductive PauliKind
  | X
  | Y
  | Z
deriving DecidableEq

def pauliGate : PauliKind → Nat → Gate
  | PauliKind.X, j => Gate.x j
  | PauliKind.Y, j => Gate.y j
  | PauliKind.Z, j => Gate.z j

namespace Five_Qubit_QECC

def num_physical_qubits : Nat := 5

def num_syndromes : Nat := 4

def logical0_coef_pos : List BitStr :=
  [[0,0,0,0,0], [0,0,1,0,1], [0,1,0,1,0], [1,0,1,0,0], [0,1,0,0,1], [1,0,0,1,0]]

def logical0_coef_neg : List BitStr :=
  [[0,0,0,1,1], [0,0,1,1,0], [0,1,1,0,0], [1,1,0,0,0], [1,0,0,0,1],
   [0,1,1,1,1], [1,1,1,1,0], [1,1,1,0,1], [1,1,0,1,1], [1,0,1,1,1]]

/-- Python int(c, 2): the first character of the string is the most
significant bit. -/
def bitStringToIndex (s : BitStr) : Nat :=
  s.foldl (fun n c => 2 * n + c) 0

def get_logical_0_components : List BitStr := logical0_coef_pos ++ logical0_coef_neg

/-- The amplitude assignment of get_logical_0_preparer over the 2^5 basis
states: start from the zero vector, set the positive indices to 1/4, then
the negative indices to -1/4.  (numpy fancy-assignment, in source order.) -/
def logical0_coefficients : Nat → ℚ :=
  logical0_coef_neg.foldl
    (fun f s => Function.update f (bitStringToIndex s) (-(1 / 4)))
    (logical0_coef_pos.foldl
      (fun f s => Function.update f (bitStringToIndex s) (1 / 4))
      (fun _ => 0))

/-- The amplitude vector passed to StatePreparation, as (index, amplitude)
terms scaled by 4: +1 on the positive strings, -1 on the negative strings,
all other amplitudes zero. -/
def logical0_terms : List (Nat × GInt) :=
  (logical0_coef_pos.map (fun s => (bitStringToIndex s, ((1 : Int), (0 : Int))))) ++
    (logical0_coef_neg.map (fun s => (bitStringToIndex s, ((-1 : Int), (0 : Int)))))

/-- The logical-zero codeword on the 5 code qubits (scaled by 4). -/
def logical0_state : QT := ofTerms 5 logical0_terms

/-- get_logical_X: an X gate on every code qubit. -/
def get_logical_X : List Gate := (List.range 5).map Gate.x

/-- get_logical_X applied to the logical-zero codeword. -/
def logical1_state : QT := runGatesN 5 get_logical_X logical0_state

/-- The private error checker on 9 qubits (5 code qubits, check ancilla i =
qubit 5+i): H on the four check ancillas, then for check i the controlled
X,Z,Z,X pattern on code qubits i, i+1, i+2, i+3 (mod 5), then H again. -/
def error_checker : List Gate :=
  ((List.range 4).map (fun i => Gate.h (5 + i))) ++
    ((List.range 4).flatMap (fun i =>
      [Gate.cx (5 + i) (i % 5), Gate.cz (5 + i) ((i + 1) % 5),
       Gate.cz (5 + i) ((i + 2) % 5), Gate.cx (5 + i) ((i + 3) % 5)])) ++
    ((List.range 4).map (fun i => Gate.h (5 + i)))

/-- Python mod 5 on possibly negative integers. -/
def pymod5 (a : Int) : Nat := (a.emod 5).toNat

def synX (j : Nat) : Nat :=
  (2 ^ pymod5 ((j : Int) - 1) + 2 ^ pymod5 ((j : Int) - 2)) % 2 ^ 4

def synZ (j : Nat) : Nat :=
  (2 ^ pymod5 (j : Int) + 2 ^ pymod5 ((j : Int) - 3)) % 2 ^ 4

def synY (j : Nat) : Nat :=
  (31 - 2 ^ pymod5 ((j : Int) - 4)) % 2 ^ 4

/-- The classically conditioned corrections of get_error_corrector, in source
order: the X loop over j, then the Z loop, then the Y loop. -/
def corrector_conditions : List (Nat × Gate) :=
  ((List.range 5).map (fun j => (synX j, Gate.x j))) ++
    ((List.range 5).map (fun j => (synZ j, Gate.z j))) ++
    ((List.range 5).map (fun j => (synY j, Gate.y j)))

/-- Apply every conditioned gate whose syndrome condition matches s. -/
def apply_corrections (s : Nat) (v : QT) : QT :=
  corrector_conditions.foldl (fun v c => if c.1 = s then applyGateN 9 c.2 v else v) v

/-- get_error_corrector acting on the 9-qubit state (5 code qubits, 4 check
ancillas): run the checker, measure the check ancillas into the syndrome
register, then apply the conditioned corrections.  Defined when the
measurement outcome is deterministic (a single possible syndrome value),
returning that value and the post-correction state. -/
def error_corrector (v : QT) : Option (Nat × QT) :=
  let w := runGatesN 9 error_checker v
  match ancillaBranches 4 w with
  | [b] => some (b.1, apply_corrections b.1 w)
  | _ => none

/-- Syndrome value at which the corrector applies the given Pauli on qubit j. -/
def syndrome_of : PauliKind → Nat → Nat
  | PauliKind.X, j => synX j
  | PauliKind.Y, j => synY j
  | PauliKind.Z, j => synZ j

/-- The 9-qubit state after preparation of logical zero: codeword on the code
qubits, check ancillas at zero. -/
def prepared0 : QT := syndromePath 4 0 logical0_state

/-- Same, after the harness also applies get_logical_X (logical_state = 1). -/
def prepared1 : QT := syndromePath 4 0 logical1_state

end Five_Qubit_QECC

namespace Shor_QECC

def num_physical_qubits : Nat := 9

def num_syndromes : Nat := 8

/-- get_logical_0_preparer: cx(0,3), cx(0,6), H on qubits 0,3,6, then each
block 3i, 3i+1, 3i+2 expanded by cx from its first qubit. -/
def logical_0_preparer : List Gate :=
  [Gate.cx 0 3, Gate.cx 0 6, Gate.h 0, Gate.h 3, Gate.h 6] ++
    ((List.range 3).flatMap (fun i =>
      [Gate.cx (3 * i) (3 * i + 1), Gate.cx (3 * i) (3 * i + 2)]))

/-- get_logical_X: a Z gate on every code qubit. -/
def get_logical_X : List Gate := (List.range 9).map Gate.z

/-- Logical-zero codeword on the 9 code qubits: the preparer run on the
all-zero state (scaled by 2 sqrt 2 from its three Hadamards). -/
def logical0_state : QT := runGatesN 9 logical_0_preparer (singletonT 9 0 (1, 0))

/-- get_logical_X applied to the logical-zero codeword. -/
def logical1_state : QT := runGatesN 9 get_logical_X logical0_state

/-- The private error checker on 17 qubits (9 code qubits, check ancilla m =
qubit 9+m): X checks compare adjacent code qubits within each block, Z checks
compare block pairs under Hadamard conjugation. -/
def error_checker : List Gate :=
  ((List.range 3).flatMap (fun i =>
    [Gate.cx (3 * i) (9 + 2 * i), Gate.cx (3 * i + 1) (9 + 2 * i),
     Gate.cx (3 * i + 1) (9 + 2 * i + 1), Gate.cx (3 * i + 2) (9 + 2 * i + 1)])) ++
    ((List.range 2).flatMap (fun i =>
      [Gate.h (9 + i + 6)] ++
        ((List.range 6).map (fun j => Gate.cx (9 + i + 6) (3 * i + j))) ++
        [Gate.h (9 + i + 6)]))

/-- The classically conditioned corrections of get_error_corrector: Z on the
block selected by syndrome bits 6,7, then X within each block i selected by
syndrome bits 2i, 2i+1, mirroring the source's nested if_test structure. -/
def apply_corrections (s : Nat) (v : QT) : QT :=
  let v := if s.testBit 6 && !s.testBit 7 then
      runGatesN 17 [Gate.z 0, Gate.z 1, Gate.z 2] v else v
  let v := if s.testBit 6 && s.testBit 7 then
      runGatesN 17 [Gate.z 3, Gate.z 4, Gate.z 5] v else v
  let v := if !s.testBit 6 && s.testBit 7 then
      runGatesN 17 [Gate.z 6, Gate.z 7, Gate.z 8] v else v
  (List.range 3).foldl (fun v i =>
    let v := if s.testBit (2 * i) && !s.testBit (2 * i + 1) then
        applyGateN 17 (Gate.x (3 * i)) v else v
    let v := if s.testBit (2 * i) && s.testBit (2 * i + 1) then
        applyGateN 17 (Gate.x (3 * i + 1)) v else v
    if !s.testBit (2 * i) && s.testBit (2 * i + 1) then
      applyGateN 17 (Gate.x (3 * i + 2)) v else v) v

/-- get_error_corrector on the 17-qubit state (9 code qubits, 8 check
ancillas); as for the five-qubit code, defined when the syndrome measurement
is deterministic. -/
def error_corrector (v : QT) : Option (Nat × QT) :=
  let w := runGatesN 17 error_checker v
  match ancillaBranches 8 w with
  | [b] => some (b.1, apply_corrections b.1 w)
  | _ => none

/-- Syndrome announced for an X error on qubit j = 3i+r: bit 2i alone for
r = 0, bits 2i and 2i+1 for r = 1, bit 2i+1 alone for r = 2 (read off the
corrector's conditions). -/
def synX (j : Nat) : Nat :=
  match j % 3 with
  | 0 => 2 ^ (2 * (j / 3))
  | 1 => 2 ^ (2 * (j / 3)) + 2 ^ (2 * (j / 3) + 1)
  | _ => 2 ^ (2 * (j / 3) + 1)

/-- Syndrome announced for a Z error in block j / 3: bit 6 alone for block 0,
bits 6 and 7 for block 1, bit 7 alone for block 2. -/
def synZ (j : Nat) : Nat :=
  match j / 3 with
  | 0 => 2 ^ 6
  | 1 => 2 ^ 6 + 2 ^ 7
  | _ => 2 ^ 7

def syndrome_of : PauliKind → Nat → Nat
  | PauliKind.X, j => synX j
  | PauliKind.Y, j => synX j + synZ j
  | PauliKind.Z, j => synZ j

/-- Scale (including global phase) with which the corrector restores the
codeword: the checker's four Hadamards contribute 4; a Y error is corrected
by separate X and Z gates whose product with Y is -i times a stabilizer,
leaving global phase -i. -/
def restore_scale : PauliKind → GInt
  | PauliKind.Y => (0, -4)
  | _ => (4, 0)

/-- The 17-qubit state after preparation of logical zero. -/
def prepared0 : QT := syndromePath 8 0 logical0_state

/-- Same, after the harness also applies get_logical_X (logical_state = 1). -/
def prepared1 : QT := syndromePath 8 0 logical1_state

end Shor_QECC

namespace test_QECC

/-- The measurement_type value selecting decoded-mode scoring; the source
compares measurement_type against this single label and treats every other
value as 'logical'. -/
def zeros_mode : String := "0s"

def logical_mode : String := "logical"

/-- An unsupported measurement_type value, for exercising the harness. -/
def invalid_mode : String := "banana"

/-- Sum of the counts of the keys satisfying the given predicate. -/
def weight (f : BitStr → Bool) (counts : List (BitStr × Nat)) : Nat :=
  (counts.map (fun kv => if f kv.1 then kv.2 else 0)).sum

/-- The '0s'-branch counting loop: add up the counts of the keys whose first
num_physical_qubits characters are all '0'. -/
def count_correct_0s (n : Nat) (counts : List (BitStr × Nat)) : Nat :=
  counts.foldl
    (fun cc st => if st.1.take n = List.replicate n 0 then cc + st.2 else cc) 0

def frac_0s (n : Nat) (counts : List (BitStr × Nat)) (trials : Nat) : ℚ :=
  (count_correct_0s n counts : ℚ) / trials

/-- The 'logical'-branch counting loop: count_correct = [0,0]; keys whose
first num_physical_qubits characters lie in the component list increment the
first entry, all others the second. -/
def count_correct_logical (components : List BitStr) (n : Nat)
    (counts : List (BitStr × Nat)) : Nat × Nat :=
  counts.foldl
    (fun cc st =>
      if st.1.take n ∈ components then (cc.1 + st.2, cc.2) else (cc.1, cc.2 + st.2))
    (0, 0)

/-- The 'logical'-branch fraction: count_correct[logical_state] / trials
(the source indexes the pair by logical_state, which is 0 or 1). -/
def frac_logical (components : List BitStr) (n : Nat) (counts : List (BitStr × Nat))
    (logical_state trials : Nat) : ℚ :=
  (([(count_correct_logical components n counts).1,
      (count_correct_logical components n counts).2].getD logical_state 0 : Nat) / (trials : ℚ))

/-- Classical model of test_QECC_random_Pauli_errors after the quantum
backend: the simulator is an external collaborator, so the measured counts
table for each noise-strength value is an input (one table per entry of the
p list).  The function mirrors the source's control flow around the
simulation: score each counts table by the measurement_type branch — the
source checks only whether measurement_type equals '0s' and treats every
other value as 'logical' — and return one fraction per noise strength.  The
source performs no validation of p, trials, error_locations or
measurement_type anywhere before (or after) simulating. -/
def test_QECC_random_Pauli_errors (logical_state trials : Nat)
    (measurement_type : String) (components : List BitStr) (n : Nat)
    (countsList : List (List (BitStr × Nat))) : List ℚ :=
  countsList.map (fun counts =>
    if measurement_type = zeros_mode then frac_0s n counts trials
    else frac_logical components n counts logical_state trials)

/-- Component set of logical one: the logical-0 components with an
all-qubits bit flip applied (the harness's documented disjointness
assumption is about this set). -/
def logical_1_components : List BitStr :=
  Five_Qubit_QECC.get_logical_0_components.map (fun s => s.map (fun b => 1 - b))

/-- The attributes of the (default) Five_Qubit_QECC instance the harness
holds: class constants, the two component lists, and the sizes of the three
registers created by __init__.  Instance methods are modeled below as
state-passing functions so that mutation of the instance is observable. -/
structure EccInstance where
  num_physical_qubits : Nat
  num_syndromes : Nat
  logical0_coef_pos : List BitStr
  logical0_coef_neg : List BitStr
  qubits_code_size : Nat
  qubits_checks_size : Nat
  syndromes_size : Nat
deriving DecidableEq

/-- The default Five_Qubit_QECC() constructed once when the harness function
is defined and shared by every later call. -/
def default_ecc : EccInstance :=
  { num_physical_qubits := 5
    num_syndromes := 4
    logical0_coef_pos := Five_Qubit_QECC.logical0_coef_pos
    logical0_coef_neg := Five_Qubit_QECC.logical0_coef_neg
    qubits_code_size := 5
    qubits_checks_size := 4
    syndromes_size := 4 }

/-- get_logical_0_preparer: reads the two coefficient lists, builds the
amplitude terms; assigns no attribute. -/
def get_logical_0_preparer_m (e : EccInstance) : List (Nat × GInt) × EccInstance :=
  ((e.logical0_coef_pos.map (fun s => (Five_Qubit_QECC.bitStringToIndex s, ((1 : Int), (0 : Int))))) ++
    (e.logical0_coef_neg.map (fun s => (Five_Qubit_QECC.bitStringToIndex s, ((-1 : Int), (0 : Int))))),
   e)

/-- get_logical_X: reads the code register; assigns no attribute. -/
def get_logical_X_m (e : EccInstance) : List Gate × EccInstance :=
  ((List.range e.qubits_code_size).map Gate.x, e)

/-- get_error_corrector: reads the registers and builds the conditioned
corrections; assigns no attribute. -/
def get_error_corrector_m (e : EccInstance) : List (Nat × Gate) × EccInstance :=
  (((List.range e.qubits_code_size).map (fun j => (Five_Qubit_QECC.synX j, Gate.x j))) ++
    ((List.range e.qubits_code_size).map (fun j => (Five_Qubit_QECC.synZ j, Gate.z j))) ++
    ((List.range e.qubits_code_size).map (fun j => (Five_Qubit_QECC.synY j, Gate.y j))),
   e)

/-- get_logical_0_components: concatenates the two component lists; assigns
no attribute. -/
def get_logical_0_components_m (e : EccInstance) : List BitStr × EccInstance :=
  (e.logical0_coef_pos ++ e.logical0_coef_neg, e)

/-- One harness call's interactions with its ecc instance, state threaded
explicitly and in source order: attribute reads, get_logical_0_preparer,
optionally get_logical_X, get_error_corrector, for decoded measurement
optionally get_logical_X again plus the preparer (inverted), then the scoring
loop — which in the 'logical' branch calls get_logical_0_components once per
counts key. -/
def harness_on_instance (logical_state trials : Nat) (measurement_type : String)
    (counts : List (BitStr × Nat)) (e : EccInstance) : ℚ × EccInstance :=
  let n := e.num_physical_qubits
  let prep := get_logical_0_preparer_m e
  let e1 := prep.2
  let lx := if logical_state = 1 then get_logical_X_m e1 else ([], e1)
  let e2 := lx.2
  let corr := get_error_corrector_m e2
  let e3 := corr.2
  let e4 :=
    if measurement_type = zeros_mode then
      let lx2 := if logical_state = 1 then get_logical_X_m e3 else ([], e3)
      (get_logical_0_preparer_m lx2.2).2
    else e3
  if measurement_type = zeros_mode then
    (frac_0s n counts trials, e4)
  else
    let scored := counts.foldl
      (fun acc st =>
        let comp := get_logical_0_components_m acc.2
        (if st.1.take n ∈ comp.1 then (acc.1.1 + st.2, acc.1.2)
         else (acc.1.1, acc.1.2 + st.2), comp.2))
      (((0 : Nat), (0 : Nat)), e4)
    ((([scored.1.1, scored.1.2].getD logical_state 0 : Nat) / (trials : ℚ)), scored.2)

end test_QECC

/-- Auxiliary: the scoring fold of the 'logical' branch accumulates the total
count of keys inside the component list in the first entry and the total
count of the remaining keys in the second. -/
theorem count_correct_logical_foldl (components : List BitStr) (n : Nat) :
    ∀ (counts : List (BitStr × Nat)) (a b : Nat),
      counts.foldl
          (fun cc st =>
            if st.1.take n ∈ components then (cc.1 + st.2, cc.2) else (cc.1, cc.2 + st.2))
          (a, b) =
        (a + test_QECC.weight (fun k => decide (k.take n ∈ components)) counts,
         b + test_QECC.weight (fun k => !decide (k.take n ∈ components)) counts) := by
  intro counts
  induction counts with
  | nil => intro a b; simp [test_QECC.weight]
  | cons kv rest ih =>
    intro a b
    simp only [List.foldl_cons]
    by_cases h : kv.1.take n ∈ components
    · rw [if_pos h, ih]
      simp [test_QECC.weight, h, Nat.add_assoc]
    · rw [if_neg h, ih]
      simp [test_QECC.weight, h, Nat.add_assoc]

/-- Auxiliary: weights of pointwise equal predicates agree. -/
theorem weight_congr (f g : BitStr → Bool) :
    ∀ counts : List (BitStr × Nat),
      (∀ kv ∈ counts, f kv.1 = g kv.1) → test_QECC.weight f counts = test_QECC.weight g counts := by
  intro counts
  induction counts with
  | nil => intro _; rfl
  | cons kv rest ih =>
    intro h
    have hkv := h kv (List.mem_cons_self kv rest)
    have hr := ih (fun x hx => h x (List.mem_cons_of_mem kv hx))
    simp [test_QECC.weight] at hr ⊢
    rw [hkv, hr]

/-- Auxiliary: over all 32 five-bit strings, lying outside the logical-0
component list is the same as lying inside the logical-1 component list
(the two lists are disjoint and together exhaust the 32 strings). -/
theorem five_components_cover :
    ∀ s ∈ all_bit_strings 5,
      (¬ s ∈ Five_Qubit_QECC.get_logical_0_components) ↔ s ∈ test_QECC.logical_1_components := by
  decide

/-- Auxiliary: the scoring fold of harness_on_instance never changes the
threaded instance. -/
theorem harness_scored_snd (n : Nat) :
    ∀ (counts : List (BitStr × Nat)) (p : Nat × Nat) (e : test_QECC.EccInstance),
      (counts.foldl
          (fun acc st =>
            let comp := test_QECC.get_logical_0_components_m acc.2
            (if st.1.take n ∈ comp.1 then (acc.1.1 + st.2, acc.1.2)
             else (acc.1.1, acc.1.2 + st.2), comp.2))
          (p, e)).2 = e := by
  intro counts
  induction counts with
  | nil => intro p e; rfl
  | cons kv rest ih =>
    intro p e
    simp only [List.foldl_cons]
    exact ih _ e

/-- Decoding (the inverted preparer) after logical X on the nine-qubit code
yields exactly the single basis pattern with qubit 0 set — a deterministic
non-all-zero decoded measurement. -/
theorem shor_logical_one_decodes_to_single_pattern :
    runGatesN 9 (invGates Shor_QECC.logical_0_preparer) Shor_QECC.logical1_state =
      singletonT 9 1 (8, 0) := by
  decide

/-- The five-qubit logical-one state is orthogonal to logical zero, so a
decoded measurement of it can never yield the all-zero string, whatever
unitary the backend synthesizes for the preparer. -/
theorem five_logical_one_orthogonal_to_zero :
    qdot Five_Qubit_QECC.logical0_state Five_Qubit_QECC.logical1_state = (0, 0) := by
  decide

/-- C1: the five-qubit corrector applies an X gate to qubit j exactly when
the measured syndrome register equals (2^((j-1) mod 5) + 2^((j-2) mod 5))
mod 16, a Z gate exactly when it equals (2^(j mod 5) + 2^((j-3) mod 5))
mod 16, and a Y gate exactly when it equals (31 - 2^((j-4) mod 5)) mod 16;
the 15 condition values are pairwise distinct, nonzero and below 16, so
every nonzero 4-bit syndrome selects exactly one (Pauli, qubit) correction
and the all-zero syndrome selects none. -/
theorem five_corrector_syndrome_table :
    (∀ s : Fin 16, ∀ j : Fin 5,
      (((s : Nat), Gate.x (j : Nat)) ∈ Five_Qubit_QECC.corrector_conditions ↔
        (s : Nat) = (2 ^ Five_Qubit_QECC.pymod5 (((j : Nat) : Int) - 1) +
          2 ^ Five_Qubit_QECC.pymod5 (((j : Nat) : Int) - 2)) % 2 ^ 4) ∧
      (((s : Nat), Gate.z (j : Nat)) ∈ Five_Qubit_QECC.corrector_conditions ↔
        (s : Nat) = (2 ^ Five_Qubit_QECC.pymod5 ((j : Nat) : Int) +
          2 ^ Five_Qubit_QECC.pymod5 (((j : Nat) : Int) - 3)) % 2 ^ 4) ∧
      (((s : Nat), Gate.y (j : Nat)) ∈ Five_Qubit_QECC.corrector_conditions ↔
        (s : Nat) = (31 - 2 ^ Five_Qubit_QECC.pymod5 (((j : Nat) : Int) - 4)) % 2 ^ 4)) ∧
    (Five_Qubit_QECC.corrector_conditions.map Prod.fst).Nodup ∧
    (∀ c ∈ Five_Qubit_QECC.corrector_conditions, c.1 ≠ 0 ∧ c.1 < 2 ^ 4) ∧
    (∀ s : Fin 16,
      (Five_Qubit_QECC.corrector_conditions.filter (fun c => c.1 == (s : Nat))).length =
        if (s : Nat) = 0 then 0 else 1) := by
  decide

/-- Witness for the hypotheses inside the previous theorem: concrete reads of
the syndrome table. -/
theorem five_corrector_syndrome_table_witness :
    ((8, Gate.x 0) ∈ Five_Qubit_QECC.corrector_conditions ↔
      (8 : Nat) = (2 ^ Five_Qubit_QECC.pymod5 ((0 : Int) - 1) +
        2 ^ Five_Qubit_QECC.pymod5 ((0 : Int) - 2)) % 2 ^ 4) ∧
    ((8, Gate.x 0).1 ≠ 0 ∧ (8, Gate.x 0).1 < 2 ^ 4) :=
  ⟨(five_corrector_syndrome_table.1 (8 : Fin 16) (0 : Fin 5)).1,
    five_corrector_syndrome_table.2.2.1 (8, Gate.x 0) (by decide)⟩

/-- C4: preparing logical zero and immediately running the corrector with no
noise leaves both codes exactly in the logical-zero codeword with the
all-zero measured syndrome; for the nine-qubit code additionally undoing the
encoding (the inverted preparer) maps the corrected state to the all-zero
basis state of the code qubits, so the decoded-mode measurement is the
all-zero string in every trial and the success fraction at p = 0 is 1. -/
theorem zero_noise_preparation_roundtrip :
    Five_Qubit_QECC.error_corrector Five_Qubit_QECC.prepared0 =
      some (0, syndromePath 4 0 (qscale (16, 0) Five_Qubit_QECC.logical0_state)) ∧
    Shor_QECC.error_corrector Shor_QECC.prepared0 =
      some (0, syndromePath 8 0 (qscale (4, 0) Shor_QECC.logical0_state)) ∧
    runGatesN 17 (invGates Shor_QECC.logical_0_preparer)
        (syndromePath 8 0 (qscale (4, 0) Shor_QECC.logical0_state)) =
      syndromePath 8 0 (singletonT 9 0 (32, 0)) := by
  decide

/-- C5: the harness does not reject an unsupported measurement_type — any
value other than '0s' (here 'banana') runs the simulation and is scored by
the 'logical' branch, returning exactly the fractions of
measurement_type = 'logical'; on a concrete counts table it returns the
well-formed fraction 1 instead of failing.  (No configuration check of p,
trials, error_locations or measurement_type precedes the simulation.) -/
theorem harness_accepts_invalid_configuration :
    (∀ (ls tr : Nat) (comps : List BitStr) (n : Nat)
        (countsList : List (List (BitStr × Nat))),
      test_QECC.test_QECC_random_Pauli_errors ls tr test_QECC.invalid_mode comps n countsList =
        test_QECC.test_QECC_random_Pauli_errors ls tr test_QECC.logical_mode comps n countsList) ∧
    test_QECC.test_QECC_random_Pauli_errors 0 4 test_QECC.invalid_mode
        Five_Qubit_QECC.get_logical_0_components 5
        [[([0,0,0,0,0,0,0,0,0], 4)]] = [1] := by
  constructor
  · intro ls tr comps n countsList
    rfl
  · have h : test_QECC.test_QECC_random_Pauli_errors 0 4 test_QECC.invalid_mode
        Five_Qubit_QECC.get_logical_0_components 5
        [[([0,0,0,0,0,0,0,0,0], 4)]] = [((4 : Nat) : ℚ) / 4] := rfl
    rw [h]
    norm_num

/-- C7: the preparer's amplitude vector assigns exactly 1/4 on the six
positive strings, -1/4 on the ten negative strings and 0 elsewhere; its norm
is already 1 (so the normalize=True step is the identity); the positive and
negative groups are disjoint lists of length-5 bit strings of sizes 6 and
10; and their concatenation is exactly get_logical_0_components. -/
theorem logical0_preparation_amplitudes :
    (∀ k : Fin 32,
      Five_Qubit_QECC.logical0_coefficients (k : Nat) =
        if (k : Nat) ∈ Five_Qubit_QECC.logical0_coef_pos.map Five_Qubit_QECC.bitStringToIndex
          then 1 / 4
        else if (k : Nat) ∈ Five_Qubit_QECC.logical0_coef_neg.map Five_Qubit_QECC.bitStringToIndex
          then -(1 / 4)
        else 0) ∧
    (((List.range 32).map Five_Qubit_QECC.logical0_coefficients).map (fun q => q * q)).sum
      = 1 ∧
    Five_Qubit_QECC.logical0_coef_pos.length = 6 ∧
    Five_Qubit_QECC.logical0_coef_neg.length = 10 ∧
    (∀ s ∈ Five_Qubit_QECC.get_logical_0_components, s.length = 5 ∧ ∀ b ∈ s, b = 0 ∨ b = 1) ∧
    (∀ s ∈ Five_Qubit_QECC.logical0_coef_pos, s ∉ Five_Qubit_QECC.logical0_coef_neg) ∧
    Five_Qubit_QECC.logical0_coef_pos ++ Five_Qubit_QECC.logical0_coef_neg =
      Five_Qubit_QECC.get_logical_0_components := by
  refine ⟨?_, ?_, by decide, by decide, by decide, by decide, by decide⟩
  · intro k
    fin_cases k <;> rfl
  · have hvals : (List.range 32).map Five_Qubit_QECC.logical0_coefficients =
      [1/4, 0, 0, -(1/4), 0, 1/4, -(1/4), 0, 0, 1/4, 1/4, 0, -(1/4), 0, 0, -(1/4),
       0, -(1/4), 1/4, 0, 1/4, 0, 0, -(1/4), -(1/4), 0, 0, -(1/4), 0, -(1/4), -(1/4), 0] := rfl
    rw [hvals]
    norm_num [List.map_cons, List.map_nil, List.sum_cons, List.sum_nil]

/-- Witness for the hypotheses inside the previous theorem: concrete
membership instances. -/
theorem logical0_preparation_amplitudes_witness :
    (([0,0,1,0,1] : BitStr).length = 5 ∧ ∀ b ∈ ([0,0,1,0,1] : BitStr), b = 0 ∨ b = 1) ∧
    ([0,0,1,0,1] : BitStr) ∉ Five_Qubit_QECC.logical0_coef_neg :=
  ⟨logical0_preparation_amplitudes.2.2.2.2.1 [0,0,1,0,1] (by decide),
    logical0_preparation_amplitudes.2.2.2.2.2.1 [0,0,1,0,1] (by decide)⟩

/-- C9: applying logical X twice maps the logical-zero codeword exactly to
itself for both codes, and the support of the resulting five-qubit state is
exactly the index set of get_logical_0_components. -/
theorem logical_X_twice_returns_to_logical0 :
    runGatesN 5 Five_Qubit_QECC.get_logical_X
        (runGatesN 5 Five_Qubit_QECC.get_logical_X Five_Qubit_QECC.logical0_state) =
      Five_Qubit_QECC.logical0_state ∧
    runGatesN 9 Shor_QECC.get_logical_X
        (runGatesN 9 Shor_QECC.get_logical_X Shor_QECC.logical0_state) =
      Shor_QECC.logical0_state ∧
    (∀ k : Fin 32,
      qamp 5 (k : Nat)
          (runGatesN 5 Five_Qubit_QECC.get_logical_X
            (runGatesN 5 Five_Qubit_QECC.get_logical_X Five_Qubit_QECC.logical0_state))
          ≠ (0, 0) ↔
        (k : Nat) ∈
          Five_Qubit_QECC.get_logical_0_components.map Five_Qubit_QECC.bitStringToIndex) := by
  decide

/-- C6: in 'logical' (direct) measurement mode a trial is scored successful
exactly when the first five characters of the observed key lie in the
component set matching logical_state — get_logical_0_components for
logical_state = 0, the logical-one component set (the bit-flipped logical-0
components) for logical_state = 1, the two sets being disjoint — and the
reported fraction is the matching count divided by trials. -/
theorem direct_mode_scoring :
    ∀ (counts : List (BitStr × Nat)) (trials ls : Nat),
      ls = 0 ∨ ls = 1 →
      (∀ kv ∈ counts, kv.1.take 5 ∈ all_bit_strings 5) →
      (∀ s ∈ test_QECC.logical_1_components, s ∉ Five_Qubit_QECC.get_logical_0_components) ∧
      test_QECC.frac_logical Five_Qubit_QECC.get_logical_0_components 5 counts ls trials =
        ((test_QECC.weight
            (fun k => decide (k.take 5 ∈
              (if ls = 0 then Five_Qubit_QECC.get_logical_0_components
               else test_QECC.logical_1_components))) counts : Nat) : ℚ) / trials := by
  intro counts trials ls hls hk
  refine ⟨by decide, ?_⟩
  unfold test_QECC.frac_logical test_QECC.count_correct_logical
  rw [count_correct_logical_foldl]
  rcases hls with h | h <;> subst h
  · simp
  · simp only [List.getD, if_neg, List.get?]
    have hw : test_QECC.weight
        (fun k => !decide (k.take 5 ∈ Five_Qubit_QECC.get_logical_0_components)) counts =
      test_QECC.weight
        (fun k => decide (k.take 5 ∈ test_QECC.logical_1_components)) counts := by
      refine weight_congr _ _ counts (fun kv hkv => ?_)
      have hc := five_components_cover (kv.1.take 5) (hk kv hkv)
      by_cases hm : kv.1.take 5 ∈ Five_Qubit_QECC.get_logical_0_components
      · have h1 : kv.1.take 5 ∉ test_QECC.logical_1_components := fun hx => (hc.mpr hx) hm
        simp [hm, h1]
      · simp [hm, hc.mp hm]
    simp [hw]

/-- Witness for the previous theorem at a concrete counts table. -/
theorem direct_mode_scoring_witness :
    test_QECC.frac_logical Five_Qubit_QECC.get_logical_0_components 5
        [([0,0,1,0,1,0,0,0,0], 3), ([1,1,1,1,1,0,0,1,0], 2)] 1 5 =
      ((test_QECC.weight
          (fun k => decide (k.take 5 ∈
            (if 1 = 0 then Five_Qubit_QECC.get_logical_0_components
             else test_QECC.logical_1_components)))
          [([0,0,1,0,1,0,0,0,0], 3), ([1,1,1,1,1,0,0,1,0], 2)] : Nat) : ℚ) / 5 :=
  (direct_mode_scoring [([0,0,1,0,1,0,0,0,0], 3), ([1,1,1,1,1,0,0,1,0], 2)] 5 1
    (Or.inr rfl) (by decide)).2

/-- C10: no harness call mutates the ecc instance it uses: a single call
returns the instance with every attribute unchanged, and any sequence of
calls leaves the shared default instance exactly as constructed. -/
theorem harness_preserves_instance :
    (∀ (ls tr : Nat) (mt : String) (counts : List (BitStr × Nat))
        (e : test_QECC.EccInstance),
      (test_QECC.harness_on_instance ls tr mt counts e).2 = e) ∧
    (∀ calls : List (Nat × Nat × String × List (BitStr × Nat)),
      calls.foldl
        (fun e c => (test_QECC.harness_on_instance c.1 c.2.1 c.2.2.1 c.2.2.2 e).2)
        test_QECC.default_ecc = test_QECC.default_ecc) := by
  have hone : ∀ (ls tr : Nat) (mt : String) (counts : List (BitStr × Nat))
      (e : test_QECC.EccInstance),
      (test_QECC.harness_on_instance ls tr mt counts e).2 = e := by
    intro ls tr mt counts e
    unfold test_QECC.harness_on_instance
    by_cases hm : mt = test_QECC.zeros_mode <;>
      by_cases hl : ls = 1 <;>
        simp [hm, hl, test_QECC.get_logical_0_preparer_m, test_QECC.get_logical_X_m,
          test_QECC.get_error_corrector_m, harness_scored_snd]
  refine ⟨hone, ?_⟩
  intro calls
  induction calls with
  | nil => rfl
  | cons c rest ih =>
    rw [List.foldl_cons, hone]
    exact ih

/-- C2: for every qubit j and every single Pauli error X, Y or Z on qubit j
injected after logical-state preparation (either logical state, no other
noise), the five-qubit error corrector measures exactly the syndrome of its
condition table for that (Pauli, qubit) pair and restores the prepared
codeword exactly — scale 16 = (sqrt 2)^8 accounts for the checker's eight
unnormalized Hadamards — so every trial measures the correct codeword and
the harness reports success fraction 1. -/
theorem five_single_error_restores_codeword :
    ∀ (p : PauliKind) (j : Fin 5),
      Five_Qubit_QECC.error_corrector
          (applyGateN 9 (pauliGate p (j : Nat)) Five_Qubit_QECC.prepared0) =
        some (Five_Qubit_QECC.syndrome_of p (j : Nat),
          syndromePath 4 (Five_Qubit_QECC.syndrome_of p (j : Nat))
            (qscale (16, 0) Five_Qubit_QECC.logical0_state)) ∧
      Five_Qubit_QECC.error_corrector
          (applyGateN 9 (pauliGate p (j : Nat)) Five_Qubit_QECC.prepared1) =
        some (Five_Qubit_QECC.syndrome_of p (j : Nat),
          syndromePath 4 (Five_Qubit_QECC.syndrome_of p (j : Nat))
            (qscale (16, 0) Five_Qubit_QECC.logical1_state)) := by
  intro p
  cases p <;> decide

/-- C3: for every qubit j and every single Pauli error X, Y or Z on qubit j
injected after logical-state preparation (either logical state, no other
noise), the nine-qubit error corrector measures a deterministic syndrome
identifying that (Pauli, qubit) pair and restores the prepared codeword up
to the explicit scale restore_scale — 4 = (sqrt 2)^4 from the checker's four
unnormalized Hadamards, with the extra global phase -i in the Y case — so
every trial measures the correct codeword and the harness reports success
fraction 1. -/
theorem shor_single_error_restores_codeword :
    ∀ (p : PauliKind) (j : Fin 9),
      Shor_QECC.error_corrector
          (applyGateN 17 (pauliGate p (j : Nat)) Shor_QECC.prepared0) =
        some (Shor_QECC.syndrome_of p (j : Nat),
          syndromePath 8 (Shor_QECC.syndrome_of p (j : Nat))
            (qscale (Shor_QECC.restore_scale p) Shor_QECC.logical0_state)) ∧
      Shor_QECC.error_corrector
          (applyGateN 17 (pauliGate p (j : Nat)) Shor_QECC.prepared1) =
        some (Shor_QECC.syndrome_of p (j : Nat),
          syndromePath 8 (Shor_QECC.syndrome_of p (j : Nat))
            (qscale (Shor_QECC.restore_scale p) Shor_QECC.logical1_state)) := by
  intro p
  cases p <;> decide
